import Mathlib

/-!
Verification of the profile-to-document transformation engine of the
`linkedin-profile-tool` repository (`src/main.ts`).

The embedding models the pure formatting logic of `fetchLinkedInProfile`
(everything between a successfully parsed JSON response and the returned
`{code, details}` value) and the query assembly of `searchLinkedInProfiles`.
JavaScript strings become Lean `String`s, JS numbers used here (months and
years, always integral) become `Int`, possibly-absent JSON fields become
`Option`, and the `try`/`catch` around the formatter becomes an `Except`:
iterating `for (const x of undefined)` throws a `TypeError`, which the
`catch` turns into an error result (`code: 1`).

JS string-method semantics are reproduced at character-list level:
`String.prototype.split(sep)` splits on every occurrence of `sep`, and the
Obsidian `contains` polyfills are `String.prototype.includes` (substring
test) for strings and `Array.prototype.includes` (exact equality) for
arrays.
-/

/-- JS `String.prototype.split` with a single-character separator, on a
character list: split at every occurrence of `c`. -/
def splitChar (c : Char) : List Char → List (List Char)
  | [] => [[]]
  | a :: as =>
    match splitChar c as with
    | [] => [[]]
    | h :: t => if a = c then [] :: h :: t else (a :: h) :: t

/-- JS `s.split(c)` for a one-character separator string. -/
def jsSplitChar (c : Char) (s : String) : List String :=
  (splitChar c s.data).map String.mk

/-- Boolean prefix test on character lists. -/
def isPrefB : List Char → List Char → Bool
  | [], _ => true
  | _ :: _, [] => false
  | a :: as, b :: bs => a = b && isPrefB as bs

/-- Boolean "occurs as a contiguous subsequence" test on character lists. -/
def containsSeq (pat : List Char) : List Char → Bool
  | [] => isPrefB pat []
  | l@(_ :: rest) => isPrefB pat l || containsSeq pat rest

/-- JS / Obsidian `String.prototype.contains` (alias of `includes`):
substring membership. -/
def jsIncludes (s pat : String) : Bool :=
  containsSeq pat.data s.data

/-- JS `String.prototype.trim`: strip leading and trailing whitespace. -/
def jsTrim (s : String) : String :=
  String.mk
    (((s.data.dropWhile Char.isWhitespace).reverse.dropWhile Char.isWhitespace).reverse)

/-- Concatenation of a list of strings (JS `join('')` shape). -/
def sconcat : List String → String
  | [] => ""
  | s :: ss => s ++ sconcat ss

/-- Rendering of a possibly-absent JS value inside a template literal:
`undefined` prints as the string `"undefined"`. -/
def jsUndef : Option String → String
  | some s => s
  | none => "undefined"

/-- A `{month, year}` pair as found in `start` / `end` of the API response. -/
structure DateYM where
  month : Int
  year : Int
deriving DecidableEq, Repr

/-- One element of `result.position` (a job), with the locale-keyed fields
already projected to their `en_US` entry as the code does. -/
structure JobEntry where
  multiLocaleTitle : String
  employmentType : String
  multiLocaleCompanyName : String
  location : String
  description : String
  start : DateYM
  «end» : DateYM
deriving DecidableEq, Repr

/-- One element of `result.educations` (a school). -/
structure EducationEntry where
  fieldOfStudy : String
  degree : String
  schoolName : String
  description : String
  activities : String
  «end» : DateYM
deriving DecidableEq, Repr

/-- The fields of the parsed profile-API response that the formatter reads.
`position` and `educations` are `Option`s because iterating a missing field
throws; `headline` and `summary` are tested with the `in` operator;
`firstName` / `lastName` are interpolated unconditionally (an absent field
prints as `"undefined"`). -/
structure ProfileRecord where
  firstName : Option String
  lastName : Option String
  headline : Option String
  summary : Option String
  position : Option (List JobEntry)
  educations : Option (List EducationEntry)
deriving DecidableEq, Repr

/-- The `noteContent` object built by `fetchLinkedInProfile`. -/
structure NoteContent where
  title : String
  body : String
deriving DecidableEq, Repr

/-- The `TypeError` raised by `for (const x of undefined)`, carrying the
name of the missing field, as caught by the surrounding `try`. -/
inductive FetchError where
  | notIterable (field : String)
deriving DecidableEq, Repr

/-- The `jobTitle` computation: append `" Intern"` for internships whose
title does not already contain the substring `"Intern"` (src/main.ts:73-76). -/
def displayTitle (job : JobEntry) : String :=
  if job.employmentType = "Internship" then
    if jsIncludes job.multiLocaleTitle "Intern" then job.multiLocaleTitle
    else job.multiLocaleTitle ++ " Intern"
  else job.multiLocaleTitle

/-- The `jobNotes` string: optional location sub-line, then the description
split on newlines and joined with `"\n- "` (src/main.ts:77-81). -/
def jobNotes (job : JobEntry) : String :=
  (if job.location ≠ "" then "\n- " ++ job.location else "") ++
  (if job.description ≠ "" then
    "- " ++ String.intercalate "\n- " (jsSplitChar '\n' job.description) ++ "\n"
  else "")

/-- `` `${m}/` `` when the month is present, `""` when it is `0`
(src/main.ts:87). -/
def monthSlash (m : Int) : String :=
  if m ≠ 0 then toString m ++ "/" else ""

/-- Company/school display: plain name if already in `linkedOrgs`, else a
`[[...]]` cross-reference (src/main.ts:84-85, 111-112). -/
def orgRef (linkedOrgs : List String) (name : String) : String :=
  if name ∈ linkedOrgs then name else "[[" ++ name ++ "]]"

/-- The text contributed by one job, before deciding whether it is
prepended or appended (src/main.ts:82-99; the two branches build the same
text except for `since`/`from ... to`). -/
def jobChunk (linkedOrgs : List String) (job : JobEntry) : String :=
  if job.«end».year = 0 then
    "**" ++ displayTitle job ++ "** at " ++ orgRef linkedOrgs job.multiLocaleCompanyName ++
      " since " ++ monthSlash job.start.month ++ toString job.start.year ++ "." ++
      jobNotes job ++ "\n"
  else
    "**" ++ displayTitle job ++ "** at " ++ orgRef linkedOrgs job.multiLocaleCompanyName ++
      " from " ++ monthSlash job.start.month ++ toString job.start.year ++ " to " ++
      monthSlash job.«end».month ++ toString job.«end».year ++ "." ++
      jobNotes job ++ "\n"

/-- One iteration of the `for (const job of result.position)` loop: a job
with `end.year == 0` prepends its chunk to the body, any other job appends
it; the company name is pushed onto `linkedOrgs` in both cases
(src/main.ts:72-102). -/
def jobStep (st : String × List String) (job : JobEntry) : String × List String :=
  ((if job.«end».year = 0 then jobChunk st.2 job ++ st.1 else st.1 ++ jobChunk st.2 job),
   st.2 ++ [job.multiLocaleCompanyName])

/-- The degree rendering: `degree.contains('-') ?
degree.split('-')[1].trim() : degree` (src/main.ts:108-109). Note that JS
`split('-')` splits on every hyphen, so `[1]` is the part between the
first and the second hyphen. -/
def degreeText (degree : String) : String :=
  if jsIncludes degree "-" then jsTrim ((jsSplitChar '-' degree).getD 1 "")
  else degree

/-- The text contributed by one school: field of study, degree, school
reference, optional graduation year, then description and activities as
bulleted blocks (src/main.ts:106-124). -/
def eduChunk (linkedOrgs : List String) (school : EducationEntry) : String :=
  "**" ++ school.fieldOfStudy ++ "** " ++ degreeText school.degree ++ " from " ++
    orgRef linkedOrgs school.schoolName ++
    (if school.«end».year ≠ 0 then ", " ++ toString school.«end».year ++ "." else ".") ++
    "\n" ++
  (if school.description ≠ "" then
    "- " ++ String.intercalate "\n- " (jsSplitChar '\n' school.description) ++ "\n"
  else "") ++
  (if school.activities ≠ "" then
    "- " ++ String.intercalate "\n- " (jsSplitChar '\n' school.activities) ++ "\n"
  else "")

/-- One iteration of the `for (const school of result.educations)` loop:
always appends, then pushes the school name (src/main.ts:105-126). -/
def eduStep (st : String × List String) (school : EducationEntry) : String × List String :=
  (st.1 ++ eduChunk st.2 school, st.2 ++ [school.schoolName])

/-- The headline prefix: `('headline' in result) ? `*${headline}.*\n` : ''`
(src/main.ts:131). -/
def headlinePart (r : ProfileRecord) : String :=
  match r.headline with
  | some h => "*" ++ h ++ ".*\n"
  | none => ""

/-- The summary prefix: `('summary' in result) ? `${summary}\n` : '\n'`
(src/main.ts:132). -/
def summaryPart (r : ProfileRecord) : String :=
  match r.summary with
  | some s => s ++ "\n"
  | none => "\n"

/-- The pure formatting logic of `fetchLinkedInProfile`
(src/main.ts:61-147), from a parsed response to the `{code, details}`
result. Iterating a missing `position` (and, failing that, a missing
`educations`) throws, which the `catch` converts into the error result;
every other input produces a note. -/
def fetchLinkedInProfileFormat (r : ProfileRecord) : Except FetchError NoteContent :=
  match r.position with
  | none => .error (.notIterable "position")
  | some jobs =>
    match r.educations with
    | none => .error (.notIterable "educations")
    | some schools =>
      let st1 := jobs.foldl jobStep ("## Background\n### Work\n", [])
      let st2 := schools.foldl eduStep (st1.1 ++ "### Education\n", st1.2)
      .ok { title := jsUndef r.firstName ++ " " ++ jsUndef r.lastName,
            body := headlinePart r ++ summaryPart r ++ (st2.1 ++ "\n---\n#people") }

/-- The `params` string assembled by `searchLinkedInProfiles`
(src/main.ts:151-154); JS truthiness of a string is non-emptiness. -/
def searchParams (firstName lastName keywords : String) : String :=
  (if keywords ≠ "" then "keywords=" ++ keywords ++ "&" else "") ++
  (if firstName ≠ "" then "firstName=" ++ firstName ++ "&" else "") ++
  (if lastName ≠ "" then "lastName=" ++ lastName else "")

/-- The query-building part of `searchLinkedInProfiles`
(src/main.ts:150-162): empty `params` short-circuits into the error result
before any network request. -/
def searchLinkedInProfilesQuery (firstName lastName keywords : String) :
    Except String String :=
  let params := searchParams firstName lastName keywords
  if params = "" then .error "No search parameters provided."
  else .ok params

/-! ## Derived views of the formatter

The fold over jobs interleaves prepending (current positions) and
appending (past positions). The definitions below name the individual
pieces so the final body can be described as a concatenation of blocks;
the lemmas prove that `fetchLinkedInProfileFormat` equals that
decomposition. -/

/-- Everything one loop iteration contributes: the rendered text, whether
the entry is a current position (prepended), the organization name, and
whether that name was rendered as a `[[...]]` cross-reference. -/
structure ChunkInfo where
  text : String
  current : Bool
  org : String
  linked : Bool
deriving DecidableEq, Repr

/-- The chunks of a job list, threading the `linkedOrgs` accumulator the
way the loop does. -/
def jobChunksFrom (orgs : List String) : List JobEntry → List ChunkInfo
  | [] => []
  | j :: js =>
    { text := jobChunk orgs j,
      current := decide (j.«end».year = 0),
      org := j.multiLocaleCompanyName,
      linked := decide (j.multiLocaleCompanyName ∉ orgs) } ::
    jobChunksFrom (orgs ++ [j.multiLocaleCompanyName]) js

/-- The chunks of a school list (always appended). -/
def eduChunksFrom (orgs : List String) : List EducationEntry → List ChunkInfo
  | [] => []
  | s :: ss =>
    { text := eduChunk orgs s,
      current := false,
      org := s.schoolName,
      linked := decide (s.schoolName ∉ orgs) } ::
    eduChunksFrom (orgs ++ [s.schoolName]) ss

/-- The block of current-position chunks, last-processed first. -/
def currentBlock (l : List ChunkInfo) : String :=
  sconcat (((l.filter (·.current)).reverse).map (·.text))

/-- The block of past-position chunks, in processing order. -/
def pastBlock (l : List ChunkInfo) : String :=
  sconcat ((l.filter (fun c => !c.current)).map (·.text))

/-- The education block, in processing order. -/
def eduBlock (l : List ChunkInfo) : String :=
  sconcat (l.map (·.text))

/-- The `(organization name, rendered as cross-reference?)` pairs produced
by processing a name sequence against an accumulator, in processing
order. -/
def refsOf (orgs : List String) : List String → List (String × Bool)
  | [] => []
  | n :: ns => (n, decide (n ∉ orgs)) :: refsOf (orgs ++ [n]) ns

/-- Organization occurrences of one formatted document in processing order
(jobs as the loop visits them, then schools). -/
def procRefs (jobs : List JobEntry) (schools : List EducationEntry) :
    List (String × Bool) :=
  (jobChunksFrom [] jobs ++
    eduChunksFrom (jobs.map (·.multiLocaleCompanyName)) schools).map
    (fun c => (c.org, c.linked))

/-- Organization occurrences of one formatted document in document order:
current positions (reversed), then past positions, then schools. -/
def docRefs (jobs : List JobEntry) (schools : List EducationEntry) :
    List (String × Bool) :=
  (((jobChunksFrom [] jobs).filter (·.current)).reverse ++
    (jobChunksFrom [] jobs).filter (fun c => !c.current) ++
    eduChunksFrom (jobs.map (·.multiLocaleCompanyName)) schools).map
    (fun c => (c.org, c.linked))

/-- A name is rendered as a cross-reference only at its first occurrence
in the given occurrence list: any occurrence preceded by an equal name is
rendered plain. -/
def firstOccLinkedOnly (l : List (String × Bool)) : Prop :=
  ∀ i j : Fin l.length, i < j → (l.get i).1 = (l.get j).1 → (l.get j).2 = false

/-- Every occurrence not preceded by an equal name is rendered as a
cross-reference. -/
def firstOccAlwaysLinked (l : List (String × Bool)) : Prop :=
  ∀ j : Fin l.length, (∀ i : Fin l.length, i < j → (l.get i).1 ≠ (l.get j).1) →
    (l.get j).2 = true

/-- Everything after the first `'-'` (the reading of "substring after the
first hyphen" in the claim under test). -/
def afterFirstHyphen (s : String) : String :=
  String.mk ((s.data.dropWhile (· != '-')).drop 1)

/-- The characters strictly between the first `'-'` and the following
`'-'` (or the end of the string). -/
def betweenFirstHyphens (s : String) : String :=
  String.mk (((s.data.dropWhile (· != '-')).drop 1).takeWhile (· != '-'))

/-! ## String helper lemmas -/

theorem sconcat_append (xs ys : List String) :
    sconcat (xs ++ ys) = sconcat xs ++ sconcat ys := by
  induction xs with
  | nil => simp [sconcat]
  | cons x xs ih => simp [sconcat, ih, String.append_assoc]

theorem strAppend_ne_empty_left (s t : String) (hs : s ≠ "") : s ++ t ≠ "" := by
  intro h
  apply hs
  have hd : s.data ++ t.data = [] := by
    have := congrArg String.data h
    simpa [String.data_append] using this
  have hsd : s.data = [] := (List.append_eq_nil.mp hd).1
  cases s with
  | mk l => cases hsd; rfl

theorem sconcat_singleton (x : String) : sconcat [x] = x := by
  simp [sconcat, String.append_empty]

/-! ## The fold over jobs and schools, as block concatenations -/

theorem foldl_jobStep_eq (js : List JobEntry) :
    ∀ (b : String) (orgs : List String),
    List.foldl jobStep (b, orgs) js =
      (currentBlock (jobChunksFrom orgs js) ++ b ++ pastBlock (jobChunksFrom orgs js),
       orgs ++ js.map (·.multiLocaleCompanyName)) := by
  induction js with
  | nil =>
    intro b orgs
    simp [currentBlock, pastBlock, jobChunksFrom, sconcat,
      String.empty_append, String.append_empty]
  | cons j js ih =>
    intro b orgs
    simp only [List.foldl_cons, jobStep, ih]
    by_cases h : j.«end».year = 0
    · simp [jobChunksFrom, currentBlock, pastBlock, h, List.filter_cons,
        sconcat_append, sconcat, Prod.mk.injEq, List.append_assoc,
        String.append_assoc, String.append_empty]
    · simp [jobChunksFrom, currentBlock, pastBlock, h, List.filter_cons,
        sconcat_append, sconcat, Prod.mk.injEq, List.append_assoc,
        String.append_assoc, String.append_empty]

theorem foldl_eduStep_eq (ss : List EducationEntry) :
    ∀ (b : String) (orgs : List String),
    List.foldl eduStep (b, orgs) ss =
      (b ++ eduBlock (eduChunksFrom orgs ss), orgs ++ ss.map (·.schoolName)) := by
  induction ss with
  | nil =>
    intro b orgs
    simp [eduBlock, eduChunksFrom, sconcat, String.append_empty]
  | cons s ss ih =>
    intro s' orgs
    simp [List.foldl_cons, eduStep, ih, eduChunksFrom, eduBlock,
      List.map_cons, sconcat, Prod.mk.injEq, List.append_assoc, String.append_assoc]

/-- The formatter result as a concatenation of named blocks: headline and
summary prefixes, then (because current positions are prepended to the
accumulator that already holds the section headers) the reversed current
block, the header lines, the past block, the education header, the
education block, and the footer. -/
theorem format_eq_blocks (r : ProfileRecord) (jobs : List JobEntry)
    (schools : List EducationEntry) (hp : r.position = some jobs)
    (he : r.educations = some schools) :
    fetchLinkedInProfileFormat r = .ok {
      title := jsUndef r.firstName ++ " " ++ jsUndef r.lastName,
      body := headlinePart r ++ summaryPart r ++
        (currentBlock (jobChunksFrom [] jobs) ++ "## Background\n### Work\n" ++
         pastBlock (jobChunksFrom [] jobs) ++ "### Education\n" ++
         eduBlock (eduChunksFrom (jobs.map (·.multiLocaleCompanyName)) schools) ++
         "\n---\n#people") } := by
  simp only [fetchLinkedInProfileFormat, hp, he, foldl_jobStep_eq, foldl_eduStep_eq,
    List.nil_append]

/-! ## First-occurrence bookkeeping -/

theorem jobChunksFrom_refs (js : List JobEntry) :
    ∀ orgs : List String,
    (jobChunksFrom orgs js).map (fun c => (c.org, c.linked)) =
      refsOf orgs (js.map (·.multiLocaleCompanyName)) := by
  induction js with
  | nil => intro orgs; simp [jobChunksFrom, refsOf]
  | cons j js ih => intro orgs; simp [jobChunksFrom, refsOf, ih]

theorem eduChunksFrom_refs (ss : List EducationEntry) :
    ∀ orgs : List String,
    (eduChunksFrom orgs ss).map (fun c => (c.org, c.linked)) =
      refsOf orgs (ss.map (·.schoolName)) := by
  induction ss with
  | nil => intro orgs; simp [eduChunksFrom, refsOf]
  | cons s ss ih => intro orgs; simp [eduChunksFrom, refsOf, ih]

theorem refsOf_append (xs : List String) :
    ∀ (orgs ys : List String),
    refsOf orgs (xs ++ ys) = refsOf orgs xs ++ refsOf (orgs ++ xs) ys := by
  induction xs with
  | nil => intro orgs ys; simp [refsOf]
  | cons x xs ih => intro orgs ys; simp [refsOf, ih, List.append_assoc]

theorem procRefs_eq_refsOf (jobs : List JobEntry) (schools : List EducationEntry) :
    procRefs jobs schools =
      refsOf [] (jobs.map (·.multiLocaleCompanyName) ++ schools.map (·.schoolName)) := by
  simp [procRefs, refsOf_append, jobChunksFrom_refs, eduChunksFrom_refs]

theorem refsOf_length (ns : List String) :
    ∀ orgs : List String, (refsOf orgs ns).length = ns.length := by
  induction ns with
  | nil => intro orgs; simp [refsOf]
  | cons n ns ih => intro orgs; simp [refsOf, ih]

theorem refsOf_getElem (ns : List String) :
    ∀ (orgs : List String) (i : Nat) (hi : i < ns.length)
      (hi' : i < (refsOf orgs ns).length),
    (refsOf orgs ns)[i] =
      (ns[i], decide (ns[i] ∉ orgs ++ ns.take i)) := by
  induction ns with
  | nil => intro orgs i hi _; simp at hi
  | cons n ns ih =>
    intro orgs i hi hi'
    cases i with
    | zero => simp [refsOf]
    | succ i =>
      have hi2 : i < ns.length := by simpa using hi
      have hi2' : i < (refsOf (orgs ++ [n]) ns).length := by
        simpa [refsOf_length] using hi2
      simp only [refsOf, List.getElem_cons_succ, ih (orgs ++ [n]) i hi2 hi2',
        List.take_succ_cons]
      simp [List.append_assoc]

/-- In `refsOf [] ns`, an occurrence is rendered as a cross-reference
exactly when its name does not occur earlier in `ns`. -/
theorem refsOf_linked_iff (ns : List String) (i : Nat) (hi : i < ns.length)
    (hi' : i < (refsOf [] ns).length) :
    ((refsOf [] ns)[i]).2 = true ↔ ns[i] ∉ ns.take i := by
  rw [refsOf_getElem ns [] i hi hi']
  simp

theorem refsOf_firstOccLinkedOnly (ns : List String) :
    firstOccLinkedOnly (refsOf [] ns) := by
  intro i j hij heq
  have hin : (i : Nat) < ns.length := by
    have h := i.isLt; have e := refsOf_length ns []; omega
  have hjn : (j : Nat) < ns.length := by
    have h := j.isLt; have e := refsOf_length ns []; omega
  rw [List.get_eq_getElem, refsOf_getElem ns [] i hin i.isLt] at heq
  rw [List.get_eq_getElem, refsOf_getElem ns [] j hjn j.isLt] at heq
  rw [List.get_eq_getElem, refsOf_getElem ns [] j hjn j.isLt]
  simp only [List.nil_append] at heq ⊢
  have hlt : (i : Nat) < (ns.take j).length := by
    simp only [List.length_take]
    omega
  have htake : (ns.take j)[(i : Nat)] = ns[(i : Nat)] := List.getElem_take ..
  have hmem : ns[(j : Nat)] ∈ ns.take (j : Nat) := by
    rw [← heq, ← htake]
    exact List.getElem_mem hlt
  simp [hmem]

theorem refsOf_firstOccAlwaysLinked (ns : List String) :
    firstOccAlwaysLinked (refsOf [] ns) := by
  intro j hnone
  have hjn : (j : Nat) < ns.length := by
    have h := j.isLt; have e := refsOf_length ns []; omega
  rw [List.get_eq_getElem, refsOf_getElem ns [] j hjn j.isLt]
  simp only [List.nil_append, decide_eq_true_eq]
  intro hmem
  obtain ⟨i, hi, hEq⟩ := List.getElem_of_mem hmem
  have hij : i < (j : Nat) := by
    have := hi
    simp only [List.length_take] at this
    omega
  have hin : i < ns.length := by
    simp only [List.length_take] at hi
    omega
  have hil : i < (refsOf [] ns).length := by rwa [refsOf_length]
  have htake : (ns.take (j : Nat))[i] = ns[i] := List.getElem_take ..
  have hname : ns[i] = ns[(j : Nat)] := by rw [← htake, hEq]
  have := hnone ⟨i, hil⟩ hij
  rw [List.get_eq_getElem, refsOf_getElem ns [] i hin hil,
    List.get_eq_getElem, refsOf_getElem ns [] j hjn j.isLt] at this
  simp only [List.nil_append] at this
  exact this hname

/-! ## Splitting on a character -/

theorem containsSeq_singleton_iff (c : Char) (l : List Char) :
    containsSeq [c] l = true ↔ c ∈ l := by
  induction l with
  | nil => simp [containsSeq, isPrefB]
  | cons a as ih =>
    rw [containsSeq]
    simp [isPrefB, ih]

theorem splitChar_ne_nil (c : Char) (l : List Char) : splitChar c l ≠ [] := by
  cases l with
  | nil => simp [splitChar]
  | cons a as =>
    rw [splitChar]
    cases splitChar c as with
    | nil => simp
    | cons h t =>
      dsimp only
      split <;> simp

theorem splitChar_headD (c : Char) (l : List Char) :
    (splitChar c l).headD [] = l.takeWhile (· != c) := by
  induction l with
  | nil => simp [splitChar]
  | cons a as ih =>
    simp only [splitChar]
    cases hsc : splitChar c as with
    | nil => exact absurd hsc (splitChar_ne_nil c as)
    | cons h t =>
      rw [hsc] at ih
      simp only [List.headD_cons] at ih
      by_cases hac : a = c
      · simp [hac, List.takeWhile_cons]
      · simp [hac, List.takeWhile_cons, ih]

theorem splitChar_eq_of_mem (c : Char) (l : List Char) (h : c ∈ l) :
    splitChar c l =
      (l.takeWhile (· != c)) :: splitChar c ((l.dropWhile (· != c)).drop 1) := by
  induction l with
  | nil => simp at h
  | cons a as ih =>
    by_cases hac : a = c
    · subst hac
      simp only [splitChar, List.takeWhile_cons, bne_self_eq_false, Bool.false_eq_true,
        if_false, List.dropWhile_cons, List.drop_succ_cons, List.drop_zero]
      cases hsc : splitChar a as with
      | nil => exact absurd hsc (splitChar_ne_nil a as)
      | cons h t => simp [← hsc]
    · have hmem : c ∈ as := by
        cases h with
        | head => exact absurd rfl hac
        | tail _ h => exact h
      simp only [splitChar, ih hmem, List.takeWhile_cons, List.dropWhile_cons]
      have hne : (a != c) = true := by simp [hac]
      simp [hac, hne]

theorem jsSplitChar_getD_one (d : String) (hmem : '-' ∈ d.data) :
    (jsSplitChar '-' d).getD 1 "" = betweenFirstHyphens d := by
  rw [jsSplitChar, splitChar_eq_of_mem '-' d.data hmem]
  simp only [List.map_cons, List.getD_cons_succ]
  cases hsc : splitChar '-' ((d.data.dropWhile (· != '-')).drop 1) with
  | nil => exact absurd hsc (splitChar_ne_nil _ _)
  | cons h2 t2 =>
    simp only [List.map_cons, List.getD_cons_zero]
    have hh : h2 = ((d.data.dropWhile (· != '-')).drop 1).takeWhile (· != '-') := by
      have hd := splitChar_headD '-' ((d.data.dropWhile (· != '-')).drop 1)
      rw [hsc] at hd
      simpa using hd
    rw [betweenFirstHyphens, hh]

/-- With at least one hyphen present, the degree rendering is the part of
the degree strictly between the first hyphen and the second one (or the
end of the string), trimmed. -/
theorem degreeText_of_hyphen (d : String) (h : jsIncludes d "-" = true) :
    degreeText d = jsTrim (betweenFirstHyphens d) := by
  have hmem : '-' ∈ d.data := (containsSeq_singleton_iff '-' d.data).mp h
  unfold degreeText
  rw [if_pos h, jsSplitChar_getD_one d hmem]

/-! ## Concrete test inputs -/

/-- A job with empty location/description, for concrete tests. -/
def plainJob (title etype company : String) (s e : DateYM) : JobEntry :=
  { multiLocaleTitle := title, employmentType := etype,
    multiLocaleCompanyName := company, location := "", description := "",
    start := s, «end» := e }

def jobsC1 : List JobEntry :=
  [plainJob "T1" "" "Acme" ⟨0, 2020⟩ ⟨0, 0⟩,
   plainJob "T2" "" "Acme" ⟨0, 2021⟩ ⟨0, 0⟩]

def recC1 : ProfileRecord :=
  { firstName := some "A", lastName := some "B", headline := none,
    summary := none, position := some jobsC1, educations := some [] }

def jobsC2 : List JobEntry :=
  [plainJob "T1" "" "P1co" ⟨0, 2010⟩ ⟨0, 2011⟩,
   plainJob "T2" "" "C1co" ⟨0, 2012⟩ ⟨0, 0⟩,
   plainJob "T3" "" "P2co" ⟨0, 2013⟩ ⟨0, 2014⟩,
   plainJob "T4" "" "C2co" ⟨0, 2015⟩ ⟨0, 0⟩]

def recC2 : ProfileRecord :=
  { firstName := some "A", lastName := some "B", headline := none,
    summary := none, position := some jobsC2, educations := some [] }

def recC3 : ProfileRecord :=
  { firstName := none, lastName := some "Smith", headline := none,
    summary := none, position := some [], educations := some [] }

def jobC5 : JobEntry :=
  { multiLocaleTitle := "T", employmentType := "",
    multiLocaleCompanyName := "Acme", location := "NYC",
    description := "Did X\nDid Y", start := ⟨0, 2019⟩, «end» := ⟨0, 2021⟩ }

def recC5 : ProfileRecord :=
  { firstName := some "A", lastName := some "B", headline := none,
    summary := none, position := some [jobC5], educations := some [] }

def jobC7 : JobEntry :=
  { multiLocaleTitle := "Engineer", employmentType := "Internship",
    multiLocaleCompanyName := "Acme", location := "", description := "",
    start := ⟨0, 2020⟩, «end» := ⟨0, 0⟩ }

def recC7 : ProfileRecord :=
  { firstName := some "Ada", lastName := some "Lovelace", headline := none,
    summary := none, position := some [jobC7], educations := some [] }

def recC8 : ProfileRecord :=
  { firstName := some "Grace", lastName := some "Hopper",
    headline := some "Rear Admiral", summary := some "COBOL pioneer",
    position := some [], educations := some [] }

/-! ## Claims -/

/-- C1, counterexample. The claim asserts the first-occurrence rule with
respect to positions "within the produced document". Two current positions
at the same company refute it: the loop links the occurrence it processes
first, but prepending puts the later-processed (unlinked) occurrence above
it in the document, so in document order the plain occurrence comes first
and the cross-referenced one second. The produced body shows plain `Acme`
above `[[Acme]]`. -/
theorem c1_doc_order_counterexample :
    ¬ firstOccLinkedOnly (docRefs jobsC1 []) ∧
    docRefs jobsC1 [] = [("Acme", false), ("Acme", true)] ∧
    fetchLinkedInProfileFormat recC1 = .ok
      { title := "A B",
        body := "\n**T2** at Acme since 2021.\n**T1** at [[Acme]] since 2020.\n" ++
          "## Background\n### Work\n### Education\n\n---\n#people" } := by
  refine ⟨?_, by decide, rfl⟩
  intro hcl
  have h := hcl ⟨0, by decide⟩ ⟨1, by decide⟩ (by decide) (by decide)
  exact absurd h (by decide)

/-- C1, amended: the first-occurrence cross-reference rule holds in
processing order (jobs in input order, then schools in input order,
sharing one table): an organization name is rendered as `[[...]]` exactly
at its first processing-order occurrence, and every later
processing-order occurrence of the exact same string (case-sensitive
equality) is rendered plain. -/
theorem c1_first_occurrence_processing_order (jobs : List JobEntry)
    (schools : List EducationEntry) :
    firstOccLinkedOnly (procRefs jobs schools) ∧
    firstOccAlwaysLinked (procRefs jobs schools) := by
  rw [procRefs_eq_refsOf]
  exact ⟨refsOf_firstOccLinkedOnly _, refsOf_firstOccAlwaysLinked _⟩

/-- C2: in the produced body, all current positions (`end.year == 0`)
appear in one block in reverse input order; that block precedes the past
positions' block, which lists past positions in input order. (The current
block in fact lands above the `## Background`/`### Work` header lines,
because the code prepends to an accumulator that already contains them.) -/
theorem c2_current_above_past (r : ProfileRecord) (jobs : List JobEntry)
    (schools : List EducationEntry) (hp : r.position = some jobs)
    (he : r.educations = some schools) :
    fetchLinkedInProfileFormat r = .ok {
      title := jsUndef r.firstName ++ " " ++ jsUndef r.lastName,
      body := headlinePart r ++ summaryPart r ++
        (sconcat ((((jobChunksFrom [] jobs).filter (·.current)).map (·.text)).reverse) ++
         "## Background\n### Work\n" ++
         sconcat (((jobChunksFrom [] jobs).filter (fun c => !c.current)).map (·.text)) ++
         "### Education\n" ++
         eduBlock (eduChunksFrom (jobs.map (·.multiLocaleCompanyName)) schools) ++
         "\n---\n#people") } := by
  rw [format_eq_blocks r jobs schools hp he]
  simp [currentBlock, pastBlock, List.map_reverse]

theorem c2_current_above_past_witness :
    fetchLinkedInProfileFormat recC2 = .ok
      { title := "A B",
        body := "\n**T4** at [[C2co]] since 2015.\n**T2** at [[C1co]] since 2012.\n" ++
          "## Background\n### Work\n" ++
          "**T1** at [[P1co]] from 2010 to 2011.\n**T3** at [[P2co]] from 2013 to 2014.\n" ++
          "### Education\n\n---\n#people" } := by
  rw [c2_current_above_past recC2 jobsC2 [] rfl rfl]
  rfl

/-- C3, counterexample: a record lacking `firstName` (with `position` and
`educations` present) is not rejected; the formatter returns a document
whose title interpolates the JS string `"undefined"`. -/
theorem c3_missing_name_counterexample :
    fetchLinkedInProfileFormat recC3 = .ok
      { title := "undefined Smith",
        body := "\n## Background\n### Work\n### Education\n\n---\n#people" } := rfl

/-- C3, amended: the formatter fails with an error result exactly when the
`position` sequence or the `educations` sequence is absent; records
lacking only `firstName` or `lastName` are formatted anyway (the missing
name renders as `"undefined"`). -/
theorem c3_error_iff_missing_sequences (r : ProfileRecord) :
    (∃ e, fetchLinkedInProfileFormat r = .error e) ↔
      (r.position = none ∨ r.educations = none) := by
  cases hp : r.position with
  | none =>
    simp only [fetchLinkedInProfileFormat, hp]
    exact ⟨fun _ => Or.inl trivial, fun _ => ⟨.notIterable "position", rfl⟩⟩
  | some jobs =>
    cases he : r.educations with
    | none =>
      simp only [fetchLinkedInProfileFormat, hp, he]
      exact ⟨fun _ => Or.inr trivial, fun _ => ⟨.notIterable "educations", rfl⟩⟩
    | some schools =>
      simp only [fetchLinkedInProfileFormat, hp, he]
      constructor
      · rintro ⟨e, hE⟩
        exact Except.noConfusion hE
      · rintro (h | h) <;> simp_all

def eduC4 : EducationEntry :=
  { fieldOfStudy := "CS", degree := "Bachelor-Computer-Science",
    schoolName := "MIT", description := "", activities := "", «end» := ⟨0, 0⟩ }

def recC4 : ProfileRecord :=
  { firstName := some "A", lastName := some "B", headline := none,
    summary := none, position := some [], educations := some [eduC4] }

/-- C4, counterexample: for a degree with two hyphens the code renders the
part between the first and second hyphen (`split('-')[1]`), not everything
after the first hyphen. -/
theorem c4_multi_hyphen_counterexample :
    degreeText "Bachelor-Computer-Science" = "Computer" ∧
    jsTrim (afterFirstHyphen "Bachelor-Computer-Science") = "Computer-Science" ∧
    degreeText "Bachelor-Computer-Science" ≠
      jsTrim (afterFirstHyphen "Bachelor-Computer-Science") ∧
    fetchLinkedInProfileFormat recC4 = .ok
      { title := "A B",
        body := "\n## Background\n### Work\n### Education\n**CS** Computer from [[MIT]].\n\n---\n#people" } :=
  ⟨by decide, by decide, by decide, rfl⟩

/-- C4, amended: if the degree contains a hyphen, the rendered degree text
is the trimmed substring strictly between the first hyphen and the next
hyphen (or the end of the string when there is no second hyphen); a degree
with no hyphen is rendered verbatim. -/
theorem c4_degree_between_hyphens (d : String) :
    (jsIncludes d "-" = true → degreeText d = jsTrim (betweenFirstHyphens d)) ∧
    (jsIncludes d "-" = false → degreeText d = d) := by
  constructor
  · exact degreeText_of_hyphen d
  · intro h
    unfold degreeText
    rw [if_neg]
    simp [h]

theorem c4_degree_between_hyphens_witness :
    (jsIncludes "Bachelor - Computer Science" "-" = true ∧
      degreeText "Bachelor - Computer Science" =
        jsTrim (betweenFirstHyphens "Bachelor - Computer Science")) ∧
    degreeText "Bachelor - Computer Science" = "Computer Science" :=
  ⟨⟨by decide, (c4_degree_between_hyphens "Bachelor - Computer Science").1 (by decide)⟩,
   by decide⟩

/-- C5: the first description fragment is concatenated directly after the
location (or, with no location, after the date text) because the bullet
block is appended without a leading newline; the produced body contains
the merged line `- NYC- Did X` instead of separate `- NYC` and `- Did X`
lines. -/
theorem c5_merged_bullet_lines :
    jobNotes jobC5 = "\n- NYC- Did X\n- Did Y\n" ∧
    fetchLinkedInProfileFormat recC5 = .ok
      { title := "A B",
        body := "\n## Background\n### Work\n**T** at [[Acme]] from 2019 to 2021.\n- NYC- Did X\n- Did Y\n\n### Education\n\n---\n#people" } :=
  ⟨rfl, rfl⟩

/-- C6: the query builder fails on three empty inputs; with only a last
name it produces exactly `lastName=<name>`; and with all three fields
present the query is `keywords=...&firstName=...&lastName=...` in that
fixed order. -/
theorem c6_search_query_builder :
    searchLinkedInProfilesQuery "" "" "" = .error "No search parameters provided." ∧
    searchLinkedInProfilesQuery "" "Smith" "" = .ok "lastName=Smith" ∧
    ∀ firstName lastName keywords : String,
      firstName ≠ "" → lastName ≠ "" → keywords ≠ "" →
      searchLinkedInProfilesQuery firstName lastName keywords =
        .ok (("keywords=" ++ keywords ++ "&") ++ ("firstName=" ++ firstName ++ "&") ++
          ("lastName=" ++ lastName)) := by
  refine ⟨rfl, rfl, ?_⟩
  intro f l k hf hl hk
  have hA : ("keywords=" ++ k ++ "&" : String) ≠ "" :=
    strAppend_ne_empty_left _ _ (strAppend_ne_empty_left _ _ (by decide))
  have hne : (("keywords=" ++ k ++ "&") ++ ("firstName=" ++ f ++ "&") ++
      ("lastName=" ++ l) : String) ≠ "" :=
    strAppend_ne_empty_left _ _ (strAppend_ne_empty_left _ _ hA)
  simp only [searchLinkedInProfilesQuery, searchParams]
  rw [if_pos hk, if_pos hf, if_pos hl, if_neg hne]

theorem c6_search_query_builder_witness :
    searchLinkedInProfilesQuery "Ada" "Smith" "x" =
      .ok "keywords=x&firstName=Ada&lastName=Smith" := by
  have h := c6_search_query_builder.2.2 "Ada" "Smith" "x"
    (by decide) (by decide) (by decide)
  rw [h]
  rfl

/-- C7: the sample internship job gets `" Intern"` appended to its display
title, and with `start.month == 0` the date text is `since 2020` with no
month/slash prefix, as the produced body shows. -/
theorem c7_internship_example :
    displayTitle jobC7 = "Engineer Intern" ∧
    fetchLinkedInProfileFormat recC7 = .ok
      { title := "Ada Lovelace",
        body := "\n**Engineer Intern** at [[Acme]] since 2020.\n## Background\n### Work\n### Education\n\n---\n#people" } :=
  ⟨rfl, rfl⟩

/-- C8: with empty `position` and `educations` lists the formatter
succeeds and the body consists of the optional headline/summary prefix,
the two section headers with nothing beneath them, and the footer. -/
theorem c8_empty_sections (r : ProfileRecord) (hp : r.position = some [])
    (he : r.educations = some []) :
    fetchLinkedInProfileFormat r = .ok
      { title := jsUndef r.firstName ++ " " ++ jsUndef r.lastName,
        body := headlinePart r ++ summaryPart r ++
          "## Background\n### Work\n### Education\n\n---\n#people" } := by
  simp only [fetchLinkedInProfileFormat, hp, he, List.foldl_nil]
  rfl

theorem c8_empty_sections_witness :
    fetchLinkedInProfileFormat recC8 = .ok
      { title := "Grace Hopper",
        body := "*Rear Admiral.*\nCOBOL pioneer\n## Background\n### Work\n### Education\n\n---\n#people" } := by
  rw [c8_empty_sections recC8 rfl rfl]
  rfl

/-- C9: when `lastName` is empty but `keywords` or `firstName` is not, the
assembled query ends in a dangling `&` (each of those two fragments is
emitted with an unconditional trailing `&`); keywords-only input `x`
yields exactly `keywords=x&`. -/
theorem c9_trailing_separator :
    (∀ firstName keywords : String, firstName ≠ "" ∨ keywords ≠ "" →
      ∃ p, searchLinkedInProfilesQuery firstName "" keywords = .ok (p ++ "&")) ∧
    searchLinkedInProfilesQuery "" "" "x" = .ok "keywords=x&" := by
  constructor
  · intro f k h
    by_cases hf : f = ""
    · have hk : k ≠ "" := by
        rcases h with h | h
        · exact absurd hf h
        · exact h
      subst hf
      refine ⟨"keywords=" ++ k, ?_⟩
      have hparams : searchParams "" "" k = "keywords=" ++ k ++ "&" := by
        simp [searchParams, hk, String.append_empty]
      have hne : ("keywords=" ++ k ++ "&" : String) ≠ "" :=
        strAppend_ne_empty_left ("keywords=" ++ k) "&"
          (strAppend_ne_empty_left "keywords=" k (by decide))
      simp only [searchLinkedInProfilesQuery, hparams]
      rw [if_neg hne]
    · by_cases hk : k = ""
      · subst hk
        refine ⟨"firstName=" ++ f, ?_⟩
        have hparams : searchParams f "" "" = "firstName=" ++ f ++ "&" := by
          simp [searchParams, hf, String.append_empty, String.empty_append]
        have hne : ("firstName=" ++ f ++ "&" : String) ≠ "" :=
          strAppend_ne_empty_left ("firstName=" ++ f) "&"
            (strAppend_ne_empty_left "firstName=" f (by decide))
        simp only [searchLinkedInProfilesQuery, hparams]
        rw [if_neg hne]
      · refine ⟨("keywords=" ++ k ++ "&") ++ ("firstName=" ++ f), ?_⟩
        have hparams : searchParams f "" k =
            ("keywords=" ++ k ++ "&") ++ ("firstName=" ++ f) ++ "&" := by
          simp [searchParams, hf, hk, String.append_empty, String.append_assoc]
        have hne : (("keywords=" ++ k ++ "&") ++ ("firstName=" ++ f) ++ "&" :
            String) ≠ "" :=
          strAppend_ne_empty_left (("keywords=" ++ k ++ "&") ++ ("firstName=" ++ f)) "&"
            (strAppend_ne_empty_left ("keywords=" ++ k ++ "&") ("firstName=" ++ f)
              (strAppend_ne_empty_left ("keywords=" ++ k) "&"
                (strAppend_ne_empty_left "keywords=" k (by decide))))
        simp only [searchLinkedInProfilesQuery, hparams]
        rw [if_neg hne]
  · rfl

theorem c9_trailing_separator_witness :
    ∃ p, searchLinkedInProfilesQuery "Ada" "" "" = .ok (p ++ "&") :=
  c9_trailing_separator.1 "Ada" "" (Or.inl (by decide))

/-- C10: with a `headline` field present the produced body starts with
`*<headline>.*` and a newline — a literal period inside the italics
markers, even for an empty headline — and the rest of the body is exactly
what the same record without a headline produces (no placeholder line is
emitted when the field is absent). -/
theorem c10_headline_prefix (r : ProfileRecord) (hl : String)
    (hh : r.headline = some hl) (jobs : List JobEntry)
    (schools : List EducationEntry) (hp : r.position = some jobs)
    (he : r.educations = some schools) :
    ∃ rest : String,
      fetchLinkedInProfileFormat r = .ok
        { title := jsUndef r.firstName ++ " " ++ jsUndef r.lastName,
          body := "*" ++ hl ++ ".*\n" ++ rest } ∧
      fetchLinkedInProfileFormat { r with headline := none } = .ok
        { title := jsUndef r.firstName ++ " " ++ jsUndef r.lastName,
          body := rest } := by
  refine ⟨summaryPart r ++
    (currentBlock (jobChunksFrom [] jobs) ++ "## Background\n### Work\n" ++
     pastBlock (jobChunksFrom [] jobs) ++ "### Education\n" ++
     eduBlock (eduChunksFrom (jobs.map (·.multiLocaleCompanyName)) schools) ++
     "\n---\n#people"), ?_, ?_⟩
  · rw [format_eq_blocks r jobs schools hp he]
    have hhl : headlinePart r = "*" ++ hl ++ ".*\n" := by
      simp [headlinePart, hh]
    rw [hhl]
    simp only [String.append_assoc]
  · rw [format_eq_blocks { r with headline := none } jobs schools hp he]
    simp [headlinePart, summaryPart, String.empty_append, String.append_assoc]

def recC10 : ProfileRecord :=
  { firstName := some "A", lastName := some "B", headline := some "",
    summary := none, position := some [], educations := some [] }

theorem c10_headline_prefix_witness :
    ∃ rest : String,
      fetchLinkedInProfileFormat recC10 = .ok
        { title := "A B", body := "*" ++ "" ++ ".*\n" ++ rest } ∧
      fetchLinkedInProfileFormat { recC10 with headline := none } = .ok
        { title := "A B", body := rest } :=
  c10_headline_prefix recC10 "" rfl [] [] rfl rfl

example : jsSplitChar '-' "A-B-C" = ["A", "B", "C"] := by decide
example : jsIncludes "Engineer" "Intern" = false := by decide
example : jsIncludes "Internship" "Intern" = true := by decide
example :
    searchLinkedInProfilesQuery "" "Smith" "" = .ok "lastName=Smith" := rfl
example :
    searchLinkedInProfilesQuery "" "" "" = .error "No search parameters provided." := rfl
